import Mathlib

/-!
Verification of the execution store repository
(`src/fiftyone/factory/repos/execution_store.py`).

The backing MongoDB collection is modelled as a `List Doc` of documents in
insertion order.  Each repository method of `ExecutionStoreRepo` becomes a
function taking the collection, the bound context (`self._dataset_id`, an
`Option Nat` standing for `ObjectId` or `None`) and the method arguments;
`datetime.utcnow()` is passed explicitly as a `Nat` timestamp.  Values are
modelled as `String` payloads; store markers carry no value (`none`).

The concrete repository class is `MongoExecutionStoreRepo`, whose
`_create_indexes` installs the unique index `unique_store_index` on
`(store_name, key, dataset_id)`.  MongoDB rejects an `insert_one` that
violates a unique index, so `insert_one` here returns `Except Unit`,
erring exactly when a document with the same triple is already present.
The upsert (`update_one` with `upsert=True`) and `update_one`/`delete_one`
act on the first matching document in natural order, as MongoDB does, and
`modified_count` counts only documents whose stored fields actually
changed.
-/

namespace ExecutionStore

/-- A document of the `execution_store` collection.  `StoreDocument`
markers have `key = "__store__"` and no value; `KeyDocument` entries carry
a value and timestamps. -/
structure Doc where
  store_name : String
  key : String
  dataset_id : Option Nat
  value : Option String
  created_at : Nat
  updated_at : Option Nat
  expires_at : Option Nat
deriving DecidableEq, Repr

/-- The `(store_name, key, dataset_id)` triple indexed by
`unique_store_index`. -/
def tripleOf (d : Doc) : String × String × Option Nat :=
  (d.store_name, d.key, d.dataset_id)

/-- The equality filter `dict(store_name=s, key=k, dataset_id=c)` used by
`set_key`, `get_key`, `update_ttl` and `delete_key`. -/
def matches_key (s k : String) (c : Option Nat) (d : Doc) : Bool :=
  decide (d.store_name = s ∧ d.key = k ∧ d.dataset_id = c)

/-- Modelled from the spec: `KeyDocument.get_expiration` lives in
`fiftyone.operators.store.models`, which is not under `src/`.  The spec
defines the TTL computation as `expires_at = now + ttl` when ttl is
provided and positive, else null (no expiration). -/
def get_expiration (now : Nat) (ttl : Option Nat) : Option Nat :=
  match ttl with
  | some t => if 0 < t then some (now + t) else none
  | none => none

/-- Truthiness of the `ttl` argument, as tested by `expiration if ttl else
None` in `set_key`: `None` and `0` are falsy. -/
def ttl_truthy (ttl : Option Nat) : Bool :=
  match ttl with
  | some t => decide (t ≠ 0)
  | none => false

/-- MongoDB `insert_one` on a collection carrying `unique_store_index`:
the insert is rejected (`DuplicateKeyError`) when a document with the same
`(store_name, key, dataset_id)` triple already exists. -/
def insert_one (coll : List Doc) (d : Doc) : Except Unit (List Doc) :=
  if coll.any (fun e => decide (tripleOf e = tripleOf d)) then
    .error ()
  else
    .ok (coll ++ [d])

/-- MongoDB `update_one`: rewrite the first document matching `p` with
`f`, leaving the rest of the collection unchanged. -/
def update_first (p : Doc → Bool) (f : Doc → Doc) : List Doc → List Doc
  | [] => []
  | d :: rest => if p d then f d :: rest else d :: update_first p f rest

/-- MongoDB `delete_one`: remove the first document matching `p`; the
boolean is `deleted_count > 0`. -/
def delete_one (p : Doc → Bool) : List Doc → Bool × List Doc
  | [] => (false, [])
  | d :: rest =>
    if p d then (true, rest)
    else
      let r := delete_one p rest
      (r.1, d :: r.2)

/-- Modelled from the spec: the `StoreDocument` built by `create_store`.
`StoreDocument` lives in `fiftyone.operators.store.models`, which is not
under `src/`; per the spec it is the sentinel marker record, with the
reserved key `"__store__"` that `has_store` and `list_stores` filter on,
no value, and `created_at` defaulting to now. -/
def mk_store_doc (ctx : Option Nat) (store_name : String) (now : Nat) :
    Doc :=
  { store_name := store_name, key := "__store__", dataset_id := ctx,
    value := none, created_at := now, updated_at := none,
    expires_at := none }

/-- Models `ExecutionStoreRepo.create_store`: builds a `StoreDocument` for the
current context and inserts it (no pre-existence check of its own; the
unique index can still reject the insert). -/
def create_store (coll : List Doc) (ctx : Option Nat) (store_name : String)
    (now : Nat) : Except Unit (Doc × List Doc) :=
  match insert_one coll (mk_store_doc ctx store_name now) with
  | .ok coll2 => .ok (mk_store_doc ctx store_name now, coll2)
  | .error e => .error e

/-- Models `ExecutionStoreRepo.has_store`: `find_one` on
`dict(store_name=s, key="__store__", dataset_id=ctx)`, coerced to bool. -/
def has_store (coll : List Doc) (ctx : Option Nat) (store_name : String) :
    Bool :=
  (coll.find? (matches_key store_name "__store__" ctx)).isSome

/-- Models `ExecutionStoreRepo.list_stores`: store names of all marker documents
in the current context. -/
def list_stores (coll : List Doc) (ctx : Option Nat) : List String :=
  (coll.filter
    (fun d => decide (d.key = "__store__" ∧ d.dataset_id = ctx))).map
    (fun d => d.store_name)

/-- Models `ExecutionStoreRepo.count_stores`: `count_documents` over marker
documents in the current context. -/
def count_stores (coll : List Doc) (ctx : Option Nat) : Nat :=
  coll.countP (fun d => decide (d.key = "__store__" ∧ d.dataset_id = ctx))

/-- Models `ExecutionStoreRepo.delete_store`: `delete_many` over all documents
of the store in the current context; returns the deleted count and the
remaining collection. -/
def delete_store (coll : List Doc) (ctx : Option Nat)
    (store_name : String) : Nat × List Doc :=
  (coll.countP
     (fun d => decide (d.store_name = store_name ∧ d.dataset_id = ctx)),
   coll.filter
     (fun d => !(decide (d.store_name = store_name ∧ d.dataset_id = ctx))))

/-- The `KeyDocument` value that `set_key` returns to its caller (its
`created_at` default and the branch assignments both evaluate to now). -/
def set_key_returned (ctx : Option Nat) (s k v : String) (ttl : Option Nat)
    (now : Nat) : Doc :=
  { store_name := s, key := k, dataset_id := ctx, value := some v,
    created_at := now, updated_at := some now,
    expires_at := get_expiration now ttl }

/-- The document MongoDB materializes when the `set_key` upsert inserts:
the equality fields of the filter, the `$setOnInsert` group
(`created_at = now`, `expires_at = expiration if ttl else None`) and the
`$set` group (`value`, `updated_at = now`). -/
def set_key_inserted (ctx : Option Nat) (s k v : String) (ttl : Option Nat)
    (now : Nat) : Doc :=
  { store_name := s, key := k, dataset_id := ctx, value := some v,
    created_at := now, updated_at := some now,
    expires_at := if ttl_truthy ttl then get_expiration now ttl else none }

/-- Models `ExecutionStoreRepo.set_key`: atomic upsert on the exact
`(store_name, key, dataset_id)` filter.  The `$set` group holds the
`KeyDocument` fields minus `{_id, created_at, expires_at, store_name,
key, dataset_id}`, i.e. exactly `value` and `updated_at`; the
`$setOnInsert` group fixes `created_at` and `expires_at` on insert only.
Returns the `KeyDocument` the method returns together with the new
collection. -/
def set_key (coll : List Doc) (ctx : Option Nat) (s k v : String)
    (ttl : Option Nat) (now : Nat) : Doc × List Doc :=
  if coll.any (matches_key s k ctx) then
    (set_key_returned ctx s k v ttl now,
     update_first (matches_key s k ctx)
       (fun d => { d with value := some v, updated_at := some now }) coll)
  else
    (set_key_returned ctx s k v ttl now,
     coll ++ [set_key_inserted ctx s k v ttl now])

/-- Models `ExecutionStoreRepo.get_key`: `find_one` on the exact
`(store_name, key, dataset_id)` filter; `none` when absent. -/
def get_key (coll : List Doc) (ctx : Option Nat) (s k : String) :
    Option Doc :=
  coll.find? (matches_key s k ctx)

/-- Models `ExecutionStoreRepo.update_ttl`: `update_one` with
`{"$set": {"expires_at": expiration}}`; returns `modified_count > 0`,
which MongoDB reports only when the stored field actually changed. -/
def update_ttl (coll : List Doc) (ctx : Option Nat) (s k : String)
    (ttl : Option Nat) (now : Nat) : Bool × List Doc :=
  let expiration := get_expiration now ttl
  let modified :=
    match coll.find? (matches_key s k ctx) with
    | some d => !(decide (d.expires_at = expiration))
    | none => false
  (modified,
   update_first (matches_key s k ctx)
     (fun d => { d with expires_at := expiration }) coll)

/-- Models `ExecutionStoreRepo.delete_key`: `delete_one` on the exact filter;
returns `deleted_count > 0`. -/
def delete_key (coll : List Doc) (ctx : Option Nat) (s k : String) :
    Bool × List Doc :=
  delete_one (matches_key s k ctx) coll

/-- Models `ExecutionStoreRepo.list_keys`: keys of all documents of the store in
the current context whose key is not the sentinel (`key≠"__store__"`). -/
def list_keys (coll : List Doc) (ctx : Option Nat) (s : String) :
    List String :=
  (coll.filter
    (fun d =>
      decide (d.store_name = s ∧ d.key ≠ "__store__" ∧
        d.dataset_id = ctx))).map (fun d => d.key)

/-- Models `ExecutionStoreRepo.count_keys`: `count_documents` with the same
filter as `list_keys`. -/
def count_keys (coll : List Doc) (ctx : Option Nat) (s : String) : Nat :=
  coll.countP
    (fun d =>
      decide (d.store_name = s ∧ d.key ≠ "__store__" ∧ d.dataset_id = ctx))

/-- Models `ExecutionStoreRepo.cleanup`: `delete_many` over every document of the
current context. -/
def cleanup (coll : List Doc) (ctx : Option Nat) : Nat × List Doc :=
  (coll.countP (fun d => decide (d.dataset_id = ctx)),
   coll.filter (fun d => !(decide (d.dataset_id = ctx))))

/-- Models `ExecutionStoreRepo.has_store_global`: `find_one` on
`dict(store_name=s, key="__store__")` with no context filter; the bound
context is not consulted at all. -/
def has_store_global (coll : List Doc) (store_name : String) : Bool :=
  (coll.find?
    (fun d => decide (d.store_name = store_name ∧ d.key = "__store__"))
  ).isSome

/-- Models `ExecutionStoreRepo.list_stores_global`: store names of all marker
documents across every context. -/
def list_stores_global (coll : List Doc) : List String :=
  (coll.filter (fun d => decide (d.key = "__store__"))).map
    (fun d => d.store_name)

/-- Models `ExecutionStoreRepo.count_stores_global`: `count_documents` over all
marker documents. -/
def count_stores_global (coll : List Doc) : Nat :=
  coll.countP (fun d => decide (d.key = "__store__"))

/-- One state-changing call to the repository, with its context and the
wall-clock time at which it runs. -/
inductive Op where
  | createStore (ctx : Option Nat) (name : String) (now : Nat)
  | setKey (ctx : Option Nat) (s k v : String) (ttl : Option Nat) (now : Nat)
  | updateTtl (ctx : Option Nat) (s k : String) (ttl : Option Nat) (now : Nat)
  | deleteKey (ctx : Option Nat) (s k : String)
  | deleteStore (ctx : Option Nat) (s : String)
  | cleanupOp (ctx : Option Nat)
deriving DecidableEq, Repr

/-- Effect of one repository call on the collection.  A `create_store`
rejected by the unique index leaves the collection unchanged.  The
read-only methods (`get_key`, `has_store`, the `list`/`count` family and
the global variants) do not modify the collection. -/
def apply_op (coll : List Doc) : Op → List Doc
  | .createStore ctx name now =>
    match create_store coll ctx name now with
    | .ok r => r.2
    | .error _ => coll
  | .setKey ctx s k v ttl now => (set_key coll ctx s k v ttl now).2
  | .updateTtl ctx s k ttl now => (update_ttl coll ctx s k ttl now).2
  | .deleteKey ctx s k => (delete_key coll ctx s k).2
  | .deleteStore ctx s => (delete_store coll ctx s).2
  | .cleanupOp ctx => (cleanup coll ctx).2

/-- The collection reached from the empty collection by a sequence of
repository calls. -/
def apply_ops (ops : List Op) : List Doc :=
  ops.foldl apply_op []

/-- The constraint enforced by `unique_store_index`: no two documents
share a `(store_name, key, dataset_id)` triple. -/
def uniqueTriples (coll : List Doc) : Prop :=
  (coll.map tripleOf).Nodup

instance (coll : List Doc) : Decidable (uniqueTriples coll) :=
  List.nodupDecidable _

/-! Helper lemmas about the collection primitives. -/

lemma matches_key_iff {s k : String} {c : Option Nat} {d : Doc} :
    matches_key s k c d = true ↔ tripleOf d = (s, k, c) := by
  simp [matches_key, tripleOf, Prod.ext_iff]

lemma update_first_of_forall_neg {p : Doc → Bool} {f : Doc → Doc} :
    ∀ {coll : List Doc}, (∀ d ∈ coll, ¬ p d = true) →
      update_first p f coll = coll := by
  intro coll
  induction coll with
  | nil => intro _; rfl
  | cons d rest ih =>
    intro h
    have hd : p d = false := by
      have := h d (List.mem_cons_self d rest)
      rwa [Bool.not_eq_true] at this
    simp [update_first, hd, ih (fun e he => h e (List.mem_cons_of_mem _ he))]

lemma find?_update_first {p : Doc → Bool} {f : Doc → Doc}
    (hf : ∀ d, p d = true → p (f d) = true) :
    ∀ {coll : List Doc} {d : Doc}, coll.find? p = some d →
      (update_first p f coll).find? p = some (f d) := by
  intro coll
  induction coll with
  | nil => intro d h; simp at h
  | cons a rest ih =>
    intro d h
    by_cases ha : p a = true
    · rw [List.find?_cons_of_pos _ ha] at h
      cases h
      simp only [update_first, ha, if_pos]
      exact List.find?_cons_of_pos _ (hf a ha)
    · rw [List.find?_cons_of_neg _ ha] at h
      have ha' : p a = false := by rwa [Bool.not_eq_true] at ha
      simp only [update_first, ha', Bool.false_eq_true, if_false]
      rw [List.find?_cons_of_neg _ ha]
      exact ih h

lemma map_update_first {α : Type} (g : Doc → α) {p : Doc → Bool}
    {f : Doc → Doc} (hg : ∀ d, p d = true → g (f d) = g d) :
    ∀ coll : List Doc, (update_first p f coll).map g = coll.map g := by
  intro coll
  induction coll with
  | nil => rfl
  | cons a rest ih =>
    by_cases ha : p a = true
    · simp [update_first, ha, hg a ha]
    · have ha' : p a = false := by rwa [Bool.not_eq_true] at ha
      simp [update_first, ha', ih]

lemma mem_update_first {p : Doc → Bool} {f : Doc → Doc} :
    ∀ {coll : List Doc} {e : Doc}, e ∈ update_first p f coll →
      e ∈ coll ∨ ∃ d ∈ coll, p d = true ∧ e = f d := by
  intro coll
  induction coll with
  | nil => intro e h; simp [update_first] at h
  | cons a rest ih =>
    intro e h
    by_cases ha : p a = true
    · simp only [update_first, ha, if_pos, List.mem_cons] at h
      rcases h with h | h
      · right; exact ⟨a, List.mem_cons_self a rest, ha, h⟩
      · left; exact List.mem_cons_of_mem _ h
    · have ha' : p a = false := by rwa [Bool.not_eq_true] at ha
      simp only [update_first, ha', Bool.false_eq_true, if_false,
        List.mem_cons] at h
      rcases h with h | h
      · left; simp [h]
      · rcases ih h with h2 | ⟨d, hd, hpd, he⟩
        · left; exact List.mem_cons_of_mem _ h2
        · right; exact ⟨d, List.mem_cons_of_mem _ hd, hpd, he⟩

lemma delete_one_sublist (p : Doc → Bool) :
    ∀ coll : List Doc, ((delete_one p coll).2).Sublist coll := by
  intro coll
  induction coll with
  | nil => simp [delete_one]
  | cons a rest ih =>
    by_cases ha : p a = true
    · simp only [delete_one, ha, if_pos]
      exact List.sublist_cons_self a rest
    · have ha' : p a = false := by rwa [Bool.not_eq_true] at ha
      simp only [delete_one, ha', Bool.false_eq_true, if_false]
      exact ih.cons₂ a

lemma delete_one_spec (p : Doc → Bool) : ∀ coll : List Doc,
    (coll.find? p = none ∧ delete_one p coll = (false, coll)) ∨
    (∃ l1 d l2, coll = l1 ++ d :: l2 ∧ (∀ e ∈ l1, p e = false) ∧
      p d = true ∧ delete_one p coll = (true, l1 ++ l2)) := by
  intro coll
  induction coll with
  | nil => left; exact ⟨rfl, rfl⟩
  | cons a rest ih =>
    by_cases ha : p a = true
    · right
      exact ⟨[], a, rest, rfl, by simp, ha, by simp [delete_one, ha]⟩
    · have ha' : p a = false := by rwa [Bool.not_eq_true] at ha
      rcases ih with ⟨h1, h2⟩ | ⟨l1, d, l2, he, hl1, hpd, hres⟩
      · left
        refine ⟨?_, by simp [delete_one, ha', h2]⟩
        rw [List.find?_cons_of_neg _ ha]
        exact h1
      · right
        refine ⟨a :: l1, d, l2, by simp [he], ?_, hpd,
          by simp [delete_one, ha', hres]⟩
        intro e hee
        rcases List.mem_cons.mp hee with h | h
        · simp [h, ha']
        · exact hl1 e h

lemma uniqueTriples_append_singleton {coll : List Doc} {d : Doc}
    (h : uniqueTriples coll) (hd : ∀ e ∈ coll, tripleOf e ≠ tripleOf d) :
    uniqueTriples (coll ++ [d]) := by
  unfold uniqueTriples at h ⊢
  rw [List.map_append, List.nodup_append]
  refine ⟨h, List.nodup_singleton _, ?_⟩
  intro t ht hts
  simp only [List.map_cons, List.map_nil, List.mem_singleton] at hts
  rcases List.mem_map.mp ht with ⟨e, he, hte⟩
  exact hd e he (by rw [hte, hts])

lemma uniqueTriples_of_sublist {coll coll' : List Doc}
    (h : uniqueTriples coll) (hs : coll'.Sublist coll) :
    uniqueTriples coll' := by
  unfold uniqueTriples at h ⊢
  exact h.sublist (hs.map tripleOf)

lemma update_ttl_snd (coll : List Doc) (ctx : Option Nat) (s k : String)
    (ttl : Option Nat) (now : Nat) :
    (update_ttl coll ctx s k ttl now).2
      = update_first (matches_key s k ctx)
          (fun d => { d with expires_at := get_expiration now ttl }) coll :=
  rfl

lemma update_ttl_fst (coll : List Doc) (ctx : Option Nat) (s k : String)
    (ttl : Option Nat) (now : Nat) :
    (update_ttl coll ctx s k ttl now).1
      = match coll.find? (matches_key s k ctx) with
        | some d => !(decide (d.expires_at = get_expiration now ttl))
        | none => false :=
  rfl

lemma uniqueTriples_insert_one {coll : List Doc} {d : Doc}
    {coll' : List Doc} (h : uniqueTriples coll)
    (hok : insert_one coll d = .ok coll') : uniqueTriples coll' := by
  unfold insert_one at hok
  by_cases hc : coll.any (fun e => decide (tripleOf e = tripleOf d)) = true
  · rw [if_pos hc] at hok
    exact Except.noConfusion hok
  · rw [if_neg hc] at hok
    cases hok
    apply uniqueTriples_append_singleton h
    intro e he heq
    exact hc (List.any_eq_true.mpr ⟨e, he, by simp [heq]⟩)

lemma uniqueTriples_set_key {coll : List Doc} (h : uniqueTriples coll)
    (ctx : Option Nat) (s k v : String) (ttl : Option Nat) (now : Nat) :
    uniqueTriples (set_key coll ctx s k v ttl now).2 := by
  by_cases hc : coll.any (matches_key s k ctx) = true
  · simp only [set_key, hc, if_true]
    unfold uniqueTriples at h ⊢
    rw [@map_update_first _ tripleOf (matches_key s k ctx)
      (fun d => { d with value := some v, updated_at := some now })
      (fun d _ => rfl) coll]
    exact h
  · have hc' : coll.any (matches_key s k ctx) = false := by
      rwa [Bool.not_eq_true] at hc
    simp only [set_key, hc', Bool.false_eq_true, if_false]
    apply uniqueTriples_append_singleton h
    intro e he heq
    apply hc
    rw [List.any_eq_true]
    refine ⟨e, he, ?_⟩
    rw [matches_key_iff, heq]
    rfl

lemma uniqueTriples_apply_op {coll : List Doc} (h : uniqueTriples coll) :
    ∀ op : Op, uniqueTriples (apply_op coll op) := by
  intro op
  cases op with
  | createStore ctx name now =>
    simp only [apply_op]
    cases hcs : create_store coll ctx name now with
    | ok r =>
      unfold create_store at hcs
      cases hins : insert_one coll (mk_store_doc ctx name now) with
      | ok c2 =>
        rw [hins] at hcs
        cases hcs
        exact uniqueTriples_insert_one h hins
      | error e =>
        rw [hins] at hcs
        exact Except.noConfusion hcs
    | error e => exact h
  | setKey ctx s k v ttl now =>
    exact uniqueTriples_set_key h ctx s k v ttl now
  | updateTtl ctx s k ttl now =>
    show uniqueTriples (update_ttl coll ctx s k ttl now).2
    rw [update_ttl_snd]
    unfold uniqueTriples at h ⊢
    rw [@map_update_first _ tripleOf (matches_key s k ctx)
      (fun d => { d with expires_at := get_expiration now ttl })
      (fun d _ => rfl) coll]
    exact h
  | deleteKey ctx s k =>
    exact uniqueTriples_of_sublist h
      (delete_one_sublist (matches_key s k ctx) coll)
  | deleteStore ctx s =>
    exact uniqueTriples_of_sublist h (List.filter_sublist coll)
  | cleanupOp ctx =>
    exact uniqueTriples_of_sublist h (List.filter_sublist coll)

lemma uniqueTriples_foldl :
    ∀ (ops : List Op) (coll : List Doc), uniqueTriples coll →
      uniqueTriples (ops.foldl apply_op coll) := by
  intro ops
  induction ops with
  | nil => intro coll h; exact h
  | cons op rest ih =>
    intro coll h
    exact ih _ (uniqueTriples_apply_op h op)

/-! Claim theorems. -/

/-- C4: in every state reachable from the empty collection by any
sequence of repository operations, at most one document exists per
`(store_name, key, dataset_id)` triple; in particular repeated `set_key`
calls on the same triple never produce two documents (the upsert updates
the existing one, and the unique index rejects a duplicating insert). -/
theorem reachable_unique_triples (ops : List Op) :
    uniqueTriples (apply_ops ops) :=
  uniqueTriples_foldl ops [] (by simp [uniqueTriples])

theorem reachable_unique_triples_witness :
    uniqueTriples (apply_ops
      [Op.createStore (some 1) "A" 0,
       Op.setKey (some 1) "A" "k" "v1" none 1,
       Op.setKey (some 1) "A" "k" "v2" none 2]) :=
  reachable_unique_triples
    [Op.createStore (some 1) "A" 0,
     Op.setKey (some 1) "A" "k" "v1" none 1,
     Op.setKey (some 1) "A" "k" "v2" none 2]

/-- C8: `list_keys` returns exactly the keys of the documents of the
store in the bound context other than the sentinel marker, it never
includes the sentinel key `"__store__"`, and `count_keys` equals the
number of those documents. -/
theorem list_keys_count_keys_spec (coll : List Doc) (ctx : Option Nat)
    (s : String) :
    "__store__" ∉ list_keys coll ctx s ∧
    count_keys coll ctx s = (list_keys coll ctx s).length ∧
    (∀ k, k ∈ list_keys coll ctx s ↔
      (k ≠ "__store__" ∧ ∃ d ∈ coll,
        d.store_name = s ∧ d.key = k ∧ d.dataset_id = ctx)) := by
  refine ⟨?_, ?_, ?_⟩
  · intro hmem
    unfold list_keys at hmem
    rcases List.mem_map.mp hmem with ⟨d, hd, hkey⟩
    rcases List.mem_filter.mp hd with ⟨_, hp⟩
    rw [decide_eq_true_iff] at hp
    exact hp.2.1 hkey
  · unfold count_keys list_keys
    rw [List.length_map, List.countP_eq_length_filter]
  · intro k
    constructor
    · intro hmem
      unfold list_keys at hmem
      rcases List.mem_map.mp hmem with ⟨d, hd, hkey⟩
      rcases List.mem_filter.mp hd with ⟨hdc, hp⟩
      rw [decide_eq_true_iff] at hp
      subst hkey
      exact ⟨hp.2.1, d, hdc, hp.1, rfl, hp.2.2⟩
    · rintro ⟨hk, d, hd, hs, hkey, hds⟩
      unfold list_keys
      apply List.mem_map.mpr
      refine ⟨d, List.mem_filter.mpr ⟨hd, ?_⟩, hkey⟩
      rw [decide_eq_true_iff]
      exact ⟨hs, by rw [hkey]; exact hk, hds⟩

theorem list_keys_count_keys_spec_witness :
    "__store__" ∉ list_keys [] (some 1) "A" ∧
    count_keys [] (some 1) "A" = (list_keys [] (some 1) "A").length ∧
    (∀ k, k ∈ list_keys [] (some 1) "A" ↔
      (k ≠ "__store__" ∧ ∃ d ∈ ([] : List Doc),
        d.store_name = "A" ∧ d.key = k ∧ d.dataset_id = some 1)) :=
  list_keys_count_keys_spec [] (some 1) "A"

/-- C1: starting from a collection with no document for `(s, k, ctx)`,
after `set_key(s, k, v1)` at time t1 followed by `set_key(s, k, v2)` at
time t2 in the same bound context, `get_key(s, k)` returns a document
whose value is v2, whose created_at is the t1 stamped by the first call
(unchanged by the second), and whose updated_at is t2, the time of the
second call. -/
theorem set_key_twice_get_key (coll : List Doc) (ctx : Option Nat)
    (s k v1 v2 : String) (ttl1 ttl2 : Option Nat) (t1 t2 : Nat)
    (h : ∀ d ∈ coll, ¬ matches_key s k ctx d = true) :
    ∃ d, get_key
        (set_key (set_key coll ctx s k v1 ttl1 t1).2
          ctx s k v2 ttl2 t2).2 ctx s k = some d ∧
      d.value = some v2 ∧ d.created_at = t1 ∧ d.updated_at = some t2 := by
  have hany1 : coll.any (matches_key s k ctx) = false := by
    rw [← Bool.not_eq_true, List.any_eq_true]
    rintro ⟨d, hd, hp⟩
    exact h d hd hp
  have hs1 : (set_key coll ctx s k v1 ttl1 t1).2
      = coll ++ [set_key_inserted ctx s k v1 ttl1 t1] := by
    simp only [set_key, hany1, Bool.false_eq_true, if_false]
  have hmatch : matches_key s k ctx (set_key_inserted ctx s k v1 ttl1 t1)
      = true := by
    simp [matches_key, set_key_inserted]
  have hany2 : (coll ++ [set_key_inserted ctx s k v1 ttl1 t1]).any
      (matches_key s k ctx) = true :=
    List.any_eq_true.mpr
      ⟨set_key_inserted ctx s k v1 ttl1 t1, by simp, hmatch⟩
  have hfind : (coll ++ [set_key_inserted ctx s k v1 ttl1 t1]).find?
      (matches_key s k ctx) = some (set_key_inserted ctx s k v1 ttl1 t1) := by
    rw [List.find?_append]
    rw [List.find?_eq_none.mpr h]
    simp [hmatch]
  rw [hs1]
  simp only [set_key, hany2, if_true]
  refine ⟨{ set_key_inserted ctx s k v1 ttl1 t1 with
      value := some v2, updated_at := some t2 }, ?_, rfl, rfl, rfl⟩
  unfold get_key
  exact find?_update_first
    (fun d hd => by simpa [matches_key] using hd) hfind

theorem set_key_twice_get_key_witness :
    ∃ d, get_key
        (set_key (set_key [] (some 1) "s" "k" "v1" none 10).2
          (some 1) "s" "k" "v2" none 20).2 (some 1) "s" "k" = some d ∧
      d.value = some "v2" ∧ d.created_at = 10 ∧ d.updated_at = some 20 :=
  set_key_twice_get_key [] (some 1) "s" "k" "v1" "v2" none none 10 20
    (by intro d hd; simp at hd)

/-- C2 counterexample: the entry for ("s","k") is created at time 0 with
ttl 10, so its stored expires_at is 10.  A second `set_key` at time 5
with ttl omitted does not clear the stored expires_at to null, and a
second `set_key` at time 5 with ttl 7 does not move it to 12: in both
cases the stored expires_at is still 10, because `set_key` excludes
`expires_at` from its `$set` group and only writes it via
`$setOnInsert`. -/
theorem set_key_stored_expiration_cex :
    (get_key (set_key (set_key [] none "s" "k" "v1" (some 10) 0).2
        none "s" "k" "v2" none 5).2 none "s" "k").map
      (fun d => (d.value, d.expires_at)) = some (some "v2", some 10) ∧
    (get_key (set_key (set_key [] none "s" "k" "v1" (some 10) 0).2
        none "s" "k" "v3" (some 7) 5).2 none "s" "k").map
      (fun d => (d.value, d.expires_at)) = some (some "v3", some 10) := by
  constructor <;> rfl

/-- C2 amended: for an existing entry, `set_key` updates value and sets
updated_at to now, leaving created_at untouched; the stored expires_at is
left unchanged regardless of the ttl argument (expiration is written only
on insert through `$setOnInsert`; changing it afterwards requires
`update_ttl`). -/
theorem set_key_existing_entry_update (coll : List Doc) (ctx : Option Nat)
    (s k v : String) (ttl : Option Nat) (now : Nat) (d : Doc)
    (h : get_key coll ctx s k = some d) :
    get_key (set_key coll ctx s k v ttl now).2 ctx s k
      = some { d with value := some v, updated_at := some now } := by
  have hp : matches_key s k ctx d = true := List.find?_some h
  have hmem : d ∈ coll := List.mem_of_find?_eq_some h
  have hany : coll.any (matches_key s k ctx) = true :=
    List.any_eq_true.mpr ⟨d, hmem, hp⟩
  simp only [set_key, hany, if_true]
  unfold get_key at h ⊢
  exact find?_update_first (fun e he => by simpa [matches_key] using he) h

theorem set_key_existing_entry_update_witness :
    get_key (set_key [⟨"s", "k", some 1, some "v1", 0, some 0, some 10⟩]
        (some 1) "s" "k" "v2" none 5).2 (some 1) "s" "k"
      = some ⟨"s", "k", some 1, some "v2", 0, some 5, some 10⟩ :=
  set_key_existing_entry_update
    [⟨"s", "k", some 1, some "v1", 0, some 0, some 10⟩]
    (some 1) "s" "k" "v2" none 5
    ⟨"s", "k", some 1, some "v1", 0, some 0, some 10⟩ (by rfl)

/-- C3 counterexample: `create_store("A")` succeeds on an empty
collection, but calling it again in the same context, where the marker
for "A" now exists, is rejected by the engine-enforced unique index on
`(store_name, key, dataset_id)` (a `DuplicateKeyError`), rather than
succeeding and returning the created marker. -/
theorem create_store_duplicate_cex :
    create_store [] (some 1) "A" 0
      = .ok (mk_store_doc (some 1) "A" 0, [mk_store_doc (some 1) "A" 0]) ∧
    create_store [mk_store_doc (some 1) "A" 0] (some 1) "A" 5
      = .error () := by
  constructor <;> rfl

lemma create_store_ok {coll : List Doc} {ctx : Option Nat} {name : String}
    {now : Nat}
    (h : ∀ d ∈ coll, ¬ (d.store_name = name ∧ d.key = "__store__" ∧
      d.dataset_id = ctx)) :
    create_store coll ctx name now
      = .ok (mk_store_doc ctx name now,
          coll ++ [mk_store_doc ctx name now]) := by
  have hany : coll.any
      (fun e => decide (tripleOf e = tripleOf (mk_store_doc ctx name now)))
      = false := by
    rw [← Bool.not_eq_true, List.any_eq_true]
    rintro ⟨d, hd, hp⟩
    rw [decide_eq_true_iff] at hp
    simp only [tripleOf, mk_store_doc, Prod.ext_iff] at hp
    exact h d hd ⟨hp.1, hp.2.1, hp.2.2⟩
  simp only [create_store, insert_one, hany, Bool.false_eq_true, if_false]

/-- C3 amended: `create_store` performs no pre-existence check of its
own: whenever no document with the triple (name, "__store__", ctx)
exists, the insert succeeds and the created marker is returned; but when
such a marker already exists in the bound context, the unique index
rejects the duplicate insert with an error instead of succeeding. -/
theorem create_store_spec (coll : List Doc) (ctx : Option Nat)
    (name : String) (now : Nat) :
    ((∀ d ∈ coll, ¬ (d.store_name = name ∧ d.key = "__store__" ∧
        d.dataset_id = ctx)) →
      create_store coll ctx name now
        = .ok (mk_store_doc ctx name now,
            coll ++ [mk_store_doc ctx name now])) ∧
    ((∃ d ∈ coll, d.store_name = name ∧ d.key = "__store__" ∧
        d.dataset_id = ctx) →
      create_store coll ctx name now = .error ()) := by
  constructor
  · exact fun h => create_store_ok h
  · rintro ⟨d, hd, h1, h2, h3⟩
    have hany : coll.any
        (fun e => decide (tripleOf e = tripleOf (mk_store_doc ctx name now)))
        = true := by
      refine List.any_eq_true.mpr ⟨d, hd, ?_⟩
      rw [decide_eq_true_iff]
      simp [tripleOf, mk_store_doc, h1, h2, h3]
    simp only [create_store, insert_one, hany, if_true]

theorem create_store_spec_witness :
    create_store [] (some 2) "B" 3
      = .ok (mk_store_doc (some 2) "B" 3, [mk_store_doc (some 2) "B" 3]) :=
  (create_store_spec [] (some 2) "B" 3).1 (by intro d hd; simp at hd)

/-- C5 counterexample: `set_key` does not validate the caller-supplied
key against the sentinel: a single public `set_key` call with key
`"__store__"` on the empty collection creates a document holding a user
value under the sentinel key. -/
theorem set_key_sentinel_cex :
    ∃ d ∈ (set_key [] none "s" "__store__" "v" none 0).2,
      d.key = "__store__" ∧ d.value = some "v" := by
  refine ⟨set_key_inserted none "s" "__store__" "v" none 0, ?_, rfl, rfl⟩
  simp [set_key]

/-- Documents carrying the sentinel marker key hold no user value. -/
def markers_valueless (coll : List Doc) : Prop :=
  ∀ d ∈ coll, d.key = "__store__" → d.value = none

/-- Whether an operation avoids writing a value under the sentinel key:
only `set_key` stores a caller-supplied value, so only its key argument
is constrained. -/
def op_key_ok : Op → Bool
  | .setKey _ _ k _ _ _ => decide (k ≠ "__store__")
  | _ => true

lemma mem_of_insert_one {coll coll' : List Doc} {d : Doc}
    (hok : insert_one coll d = .ok coll') :
    ∀ e ∈ coll', e ∈ coll ∨ e = d := by
  unfold insert_one at hok
  by_cases hc : coll.any (fun e => decide (tripleOf e = tripleOf d)) = true
  · rw [if_pos hc] at hok
    exact Except.noConfusion hok
  · rw [if_neg hc] at hok
    cases hok
    intro e he
    rcases List.mem_append.mp he with h | h
    · left; exact h
    · right; simpa using h

lemma markers_valueless_apply_op {coll : List Doc}
    (h : markers_valueless coll) {op : Op} (hop : op_key_ok op = true) :
    markers_valueless (apply_op coll op) := by
  cases op with
  | createStore ctx name now =>
    simp only [apply_op]
    cases hcs : create_store coll ctx name now with
    | ok r =>
      unfold create_store at hcs
      cases hins : insert_one coll (mk_store_doc ctx name now) with
      | ok c2 =>
        rw [hins] at hcs
        cases hcs
        intro e he _
        rcases mem_of_insert_one hins e he with hmem | rfl
        · exact h e hmem (by assumption)
        · rfl
      | error e =>
        rw [hins] at hcs
        exact Except.noConfusion hcs
    | error e => exact h
  | setKey ctx s k v ttl now =>
    have hk : k ≠ "__store__" := by
      simpa [op_key_ok] using hop
    by_cases hc : coll.any (matches_key s k ctx) = true
    · show markers_valueless (set_key coll ctx s k v ttl now).2
      simp only [set_key, hc, if_true]
      intro e he hkey
      rcases mem_update_first he with hmem | ⟨d, hd, hpd, rfl⟩
      · exact h e hmem hkey
      · rw [matches_key_iff] at hpd
        exact absurd hkey (by
          simp only [tripleOf, Prod.ext_iff] at hpd
          show d.key ≠ "__store__"
          rw [hpd.2.1]
          exact hk)
    · have hc' : coll.any (matches_key s k ctx) = false := by
        rwa [Bool.not_eq_true] at hc
      show markers_valueless (set_key coll ctx s k v ttl now).2
      simp only [set_key, hc', Bool.false_eq_true, if_false]
      intro e he hkey
      rcases List.mem_append.mp he with hmem | hmem
      · exact h e hmem hkey
      · exact absurd hkey (by
          simp only [List.mem_singleton] at hmem
          rw [hmem]
          exact hk)
  | updateTtl ctx s k ttl now =>
    show markers_valueless (update_ttl coll ctx s k ttl now).2
    rw [update_ttl_snd]
    intro e he hkey
    rcases mem_update_first he with hmem | ⟨d, hd, _, rfl⟩
    · exact h e hmem hkey
    · exact h d hd hkey
  | deleteKey ctx s k =>
    intro e he hkey
    exact h e ((delete_one_sublist (matches_key s k ctx) coll).subset he)
      hkey
  | deleteStore ctx s =>
    intro e he hkey
    exact h e (List.mem_of_mem_filter he) hkey
  | cleanupOp ctx =>
    intro e he hkey
    exact h e (List.mem_of_mem_filter he) hkey

lemma markers_valueless_foldl :
    ∀ (ops : List Op) (coll : List Doc), markers_valueless coll →
      (∀ op ∈ ops, op_key_ok op = true) →
      markers_valueless (ops.foldl apply_op coll) := by
  intro ops
  induction ops with
  | nil => intro coll h _; exact h
  | cons op rest ih =>
    intro coll h hops
    exact ih _
      (markers_valueless_apply_op h (hops op (List.mem_cons_self op rest)))
      (fun o ho => hops o (List.mem_cons_of_mem _ ho))

/-- C5 amended: the sentinel invariant holds for every state reachable
from the empty collection by operations that never pass the sentinel as
the `set_key` key argument: every document stored under the sentinel key
is a pure store marker with no user value.  The repository itself does
not enforce this — `set_key` accepts the sentinel key (see the
counterexample) — so the invariant is conditional on caller discipline. -/
theorem sentinel_reserved_of_key_checked (ops : List Op)
    (h : ∀ op ∈ ops, op_key_ok op = true) :
    markers_valueless (apply_ops ops) :=
  markers_valueless_foldl ops [] (by intro d hd; simp at hd) h

theorem sentinel_reserved_of_key_checked_witness :
    markers_valueless (apply_ops
      [Op.createStore (some 1) "A" 0,
       Op.setKey (some 1) "A" "k" "v" none 1]) :=
  sentinel_reserved_of_key_checked
    [Op.createStore (some 1) "A" 0,
     Op.setKey (some 1) "A" "k" "v" none 1] (by decide)

lemma countP_add_length_filter_not (p : Doc → Bool) :
    ∀ coll : List Doc,
      coll.countP p + (coll.filter (fun d => !(p d))).length = coll.length := by
  intro coll
  induction coll with
  | nil => rfl
  | cons a rest ih =>
    by_cases ha : p a = true
    · simp only [List.countP_cons, List.filter_cons, ha, if_pos,
        Bool.not_true, Bool.false_eq_true, if_false, List.length_cons]
      omega
    · have ha' : p a = false := by rwa [Bool.not_eq_true] at ha
      simp only [List.countP_cons, List.filter_cons, ha',
        Bool.not_false, if_true, Bool.false_eq_true, if_false,
        List.length_cons]
      omega

lemma countP_filter_of_imp {p q : Doc → Bool}
    (h : ∀ e, p e = true → q e = true) :
    ∀ coll : List Doc, (coll.filter q).countP p = coll.countP p := by
  intro coll
  rw [List.countP_filter]
  congr 1
  funext e
  by_cases hp : p e = true
  · simp [hp, h e hp]
  · have hp' : p e = false := by rwa [Bool.not_eq_true] at hp
    simp [hp']

/-- C6: `cleanup` in context c deletes exactly the documents (markers and
key entries alike) whose dataset_id is c and returns the number deleted:
the remaining collection holds no document of context c, every document
of another context survives, the deleted count plus the remaining length
is the original length, zero matches is a valid non-error result that
leaves the collection unchanged, and for any other context d both
`count_stores` and `count_keys` are unchanged. -/
theorem cleanup_frame_spec (coll : List Doc) (c d : Option Nat)
    (hne : d ≠ c) :
    (∀ e ∈ (cleanup coll c).2, e.dataset_id ≠ c) ∧
    (∀ e ∈ coll, e.dataset_id ≠ c → e ∈ (cleanup coll c).2) ∧
    (cleanup coll c).1 + ((cleanup coll c).2).length = coll.length ∧
    ((∀ e ∈ coll, e.dataset_id ≠ c) →
      (cleanup coll c).1 = 0 ∧ (cleanup coll c).2 = coll) ∧
    count_stores (cleanup coll c).2 d = count_stores coll d ∧
    (∀ s, count_keys (cleanup coll c).2 d s = count_keys coll d s) := by
  refine ⟨?_, ?_, ?_, ?_, ?_, ?_⟩
  · intro e he
    have := List.of_mem_filter he
    simpa using this
  · intro e he hec
    exact List.mem_filter.mpr ⟨he, by simpa using hec⟩
  · exact countP_add_length_filter_not _ coll
  · intro hall
    constructor
    · show coll.countP (fun e => decide (e.dataset_id = c)) = 0
      rw [List.countP_eq_zero]
      intro e he
      simpa using hall e he
    · show coll.filter (fun e => !(decide (e.dataset_id = c))) = coll
      rw [List.filter_eq_self]
      intro e he
      simpa using hall e he
  · apply countP_filter_of_imp
    intro e hp
    rw [decide_eq_true_iff] at hp
    simp [hp.2, hne]
  · intro s
    apply countP_filter_of_imp
    intro e hp
    rw [decide_eq_true_iff] at hp
    simp [hp.2.2, hne]

theorem cleanup_frame_spec_witness :
    (∀ e ∈ (cleanup [mk_store_doc (some 1) "A" 0] (some 2)).2,
      e.dataset_id ≠ some 2) ∧
    (∀ e ∈ [mk_store_doc (some 1) "A" 0], e.dataset_id ≠ some 2 →
      e ∈ (cleanup [mk_store_doc (some 1) "A" 0] (some 2)).2) ∧
    (cleanup [mk_store_doc (some 1) "A" 0] (some 2)).1 +
      ((cleanup [mk_store_doc (some 1) "A" 0] (some 2)).2).length = 1 ∧
    ((∀ e ∈ [mk_store_doc (some 1) "A" 0], e.dataset_id ≠ some 2) →
      (cleanup [mk_store_doc (some 1) "A" 0] (some 2)).1 = 0 ∧
      (cleanup [mk_store_doc (some 1) "A" 0] (some 2)).2
        = [mk_store_doc (some 1) "A" 0]) ∧
    count_stores (cleanup [mk_store_doc (some 1) "A" 0] (some 2)).2 (some 1)
      = count_stores [mk_store_doc (some 1) "A" 0] (some 1) ∧
    (∀ s, count_keys (cleanup [mk_store_doc (some 1) "A" 0] (some 2)).2
        (some 1) s
      = count_keys [mk_store_doc (some 1) "A" 0] (some 1) s) :=
  cleanup_frame_spec [mk_store_doc (some 1) "A" 0] (some 2) (some 1)
    (by decide)

/-- The fields of a document other than expires_at. -/
def doc_sans_expiration (d : Doc) :
    String × String × Option Nat × Option String × Nat × Option Nat :=
  (d.store_name, d.key, d.dataset_id, d.value, d.created_at, d.updated_at)

/-- C7: `update_ttl` touches only the expires_at of the first matching
entry: every other field of every document is unchanged, a miss leaves
the collection untouched, the matched entry ends up with exactly the
recomputed expiration, and the returned boolean is true iff a record was
matched and its stored expires_at actually changed (MongoDB
modified_count counts only real changes). -/
theorem update_ttl_spec (coll : List Doc) (ctx : Option Nat)
    (s k : String) (ttl : Option Nat) (now : Nat) :
    ((update_ttl coll ctx s k ttl now).1 = true ↔
      ∃ d, coll.find? (matches_key s k ctx) = some d ∧
        d.expires_at ≠ get_expiration now ttl) ∧
    (coll.find? (matches_key s k ctx) = none →
      (update_ttl coll ctx s k ttl now).2 = coll) ∧
    ((update_ttl coll ctx s k ttl now).2.map doc_sans_expiration
      = coll.map doc_sans_expiration) ∧
    (∀ d, coll.find? (matches_key s k ctx) = some d →
      (update_ttl coll ctx s k ttl now).2.find? (matches_key s k ctx)
        = some { d with expires_at := get_expiration now ttl }) := by
  refine ⟨?_, ?_, ?_, ?_⟩
  · rw [update_ttl_fst]
    cases hf : coll.find? (matches_key s k ctx) with
    | none => simp
    | some d => simp
  · intro hf
    rw [update_ttl_snd]
    exact update_first_of_forall_neg
      (by
        intro e he hp
        have := List.find?_eq_none.mp hf e he
        exact this hp)
  · rw [update_ttl_snd]
    exact @map_update_first _ doc_sans_expiration (matches_key s k ctx)
      (fun e => { e with expires_at := get_expiration now ttl })
      (fun e _ => rfl) coll
  · intro d hd
    rw [update_ttl_snd]
    exact find?_update_first
      (fun e he => by simpa [matches_key] using he) hd

theorem update_ttl_spec_witness :
    (update_ttl [] none "s" "k" (some 60) 0).2 = [] ∧
    (update_ttl [⟨"s", "k", none, some "v", 0, some 0, none⟩]
        none "s" "k" (some 60) 0).2.find? (matches_key "s" "k" none)
      = some ⟨"s", "k", none, some "v", 0, some 0, some 60⟩ :=
  ⟨(update_ttl_spec [] none "s" "k" (some 60) 0).2.1 (by rfl),
   (update_ttl_spec [⟨"s", "k", none, some "v", 0, some 0, none⟩]
      none "s" "k" (some 60) 0).2.2.2
     ⟨"s", "k", none, some "v", 0, some 0, none⟩ (by rfl)⟩

/-- C9: starting from a collection holding no marker named `name` in any
context, `create_store(name)` in context c1 succeeds, after which
`has_store name` is true when evaluated in c1 and false when evaluated in
a distinct context c2, while `has_store_global name` is true; the global
variant takes no context at all, so its answer is independent of the
context the repository instance is bound to. -/
theorem context_scoping_spec (coll : List Doc) (name : String)
    (c1 c2 : Option Nat) (now : Nat) (hne : c1 ≠ c2)
    (h : ∀ d ∈ coll, ¬ (d.store_name = name ∧ d.key = "__store__")) :
    create_store coll c1 name now
      = .ok (mk_store_doc c1 name now,
          coll ++ [mk_store_doc c1 name now]) ∧
    has_store (coll ++ [mk_store_doc c1 name now]) c1 name = true ∧
    has_store (coll ++ [mk_store_doc c1 name now]) c2 name = false ∧
    has_store_global (coll ++ [mk_store_doc c1 name now]) name = true := by
  have hnone : ∀ c : Option Nat,
      coll.find? (matches_key name "__store__" c) = none := by
    intro c
    rw [List.find?_eq_none]
    intro d hd hp
    rw [matches_key, decide_eq_true_iff] at hp
    exact h d hd ⟨hp.1, hp.2.1⟩
  refine ⟨create_store_ok (fun d hd hp => h d hd ⟨hp.1, hp.2.1⟩),
    ?_, ?_, ?_⟩
  · unfold has_store
    rw [List.find?_append, hnone c1]
    simp [matches_key, mk_store_doc]
  · unfold has_store
    rw [List.find?_append, hnone c2]
    simp [matches_key, mk_store_doc, hne]
  · unfold has_store_global
    rw [List.find?_append]
    have hg : coll.find?
        (fun d => decide (d.store_name = name ∧ d.key = "__store__"))
        = none := by
      rw [List.find?_eq_none]
      intro d hd hp
      rw [decide_eq_true_iff] at hp
      exact h d hd hp
    rw [hg]
    simp [mk_store_doc]

theorem context_scoping_spec_witness :
    create_store [] (some 1) "A" 0
      = .ok (mk_store_doc (some 1) "A" 0, [] ++ [mk_store_doc (some 1) "A" 0]) ∧
    has_store ([] ++ [mk_store_doc (some 1) "A" 0]) (some 1) "A" = true ∧
    has_store ([] ++ [mk_store_doc (some 1) "A" 0]) (some 2) "A" = false ∧
    has_store_global ([] ++ [mk_store_doc (some 1) "A" 0]) "A" = true :=
  context_scoping_spec [] "A" (some 1) (some 2) 0 (by decide)
    (by intro d hd; simp at hd)

/-- C10: `delete_key` does not protect the store marker: whenever the
store exists in the bound context (in a collection satisfying the unique
index constraint), `delete_key(s, "__store__")` returns true and deletes
the StoreMarker itself, after which `has_store(s)` is false even though
the store key entries remain (`list_keys` is unchanged). -/
theorem delete_key_sentinel_unprotected (coll : List Doc)
    (ctx : Option Nat) (s : String) (hu : uniqueTriples coll)
    (hs : has_store coll ctx s = true) :
    (delete_key coll ctx s "__store__").1 = true ∧
    has_store (delete_key coll ctx s "__store__").2 ctx s = false ∧
    list_keys (delete_key coll ctx s "__store__").2 ctx s
      = list_keys coll ctx s := by
  unfold has_store at hs
  rcases delete_one_spec (matches_key s "__store__" ctx) coll with
    ⟨hf, _⟩ | ⟨l1, m, l2, hco, hl1, hpm, hres⟩
  · rw [hf] at hs
    simp at hs
  · unfold delete_key
    rw [hres]
    have hm_triple : tripleOf m = (s, "__store__", ctx) :=
      matches_key_iff.mp hpm
    have hkey : m.key = "__store__" := by
      simp only [tripleOf, Prod.ext_iff] at hm_triple
      exact hm_triple.2.1
    refine ⟨rfl, ?_, ?_⟩
    · unfold has_store
      rw [List.find?_append]
      have h1 : l1.find? (matches_key s "__store__" ctx) = none := by
        rw [List.find?_eq_none]
        intro e he hp
        rw [hl1 e he] at hp
        exact Bool.false_ne_true hp
      have h2 : l2.find? (matches_key s "__store__" ctx) = none := by
        rw [List.find?_eq_none]
        intro e he hp
        have he_triple : tripleOf e = (s, "__store__", ctx) :=
          matches_key_iff.mp hp
        have hnd : tripleOf m ∉ l2.map tripleOf := by
          rw [hco] at hu
          unfold uniqueTriples at hu
          rw [List.map_append, List.nodup_append] at hu
          have hcons := hu.2.1
          rw [List.map_cons, List.nodup_cons] at hcons
          exact hcons.1
        exact hnd
          (List.mem_map.mpr ⟨e, he, by rw [he_triple, hm_triple]⟩)
      rw [h1, h2]
      rfl
    · unfold list_keys
      rw [hco]
      rw [List.filter_append, List.filter_append, List.filter_cons]
      simp [hkey]

theorem delete_key_sentinel_unprotected_witness :
    (delete_key [mk_store_doc (some 1) "A" 0,
        ⟨"A", "k", some 1, some "v", 0, some 0, none⟩]
        (some 1) "A" "__store__").1 = true ∧
    has_store (delete_key [mk_store_doc (some 1) "A" 0,
        ⟨"A", "k", some 1, some "v", 0, some 0, none⟩]
        (some 1) "A" "__store__").2 (some 1) "A" = false ∧
    list_keys (delete_key [mk_store_doc (some 1) "A" 0,
        ⟨"A", "k", some 1, some "v", 0, some 0, none⟩]
        (some 1) "A" "__store__").2 (some 1) "A"
      = list_keys [mk_store_doc (some 1) "A" 0,
          ⟨"A", "k", some 1, some "v", 0, some 0, none⟩] (some 1) "A" :=
  delete_key_sentinel_unprotected
    [mk_store_doc (some 1) "A" 0,
     ⟨"A", "k", some 1, some "v", 0, some 0, none⟩]
    (some 1) "A" (by decide) (by decide)

end ExecutionStore
